import Mathlib

/-!
Verification of the ECE-198 firmware sources.

Part 1 embeds the newlib heap hook `_sbrk` from
`ECE198Project/Core/Src/sysmem.c`; part 2 embeds the ADC acquisition loop
and initialization sequence from `Core/Src/main.c`.

Machine addresses (`uintptr_t`, `uint8_t *`) are modelled as `Nat` reduced
modulo `2^32`; the `ptrdiff_t` increment is a mathematical `Int`.
-/

namespace ECE198

/-- The 32-bit address space size (the target is a 32-bit STM32F4). -/
def W32 : Nat := 2 ^ 32

/-- Reduce an integer into the 32-bit address space, as the hardware does
for `uintptr_t` / pointer arithmetic. -/
def wrap32 (x : Int) : Nat := (x % (W32 : Int)).toNat

/-- The three linker-script symbols consumed by `_sbrk`:
the address of `_end`, the address of `_estack`, and the value read from
`_Min_Stack_Size` (the code subtracts the value, per its own comment). -/
structure LinkerSyms where
  end_addr : Nat
  estack_addr : Nat
  min_stack_size : Nat

/-- The process-wide mutable state touched by `_sbrk`: the static pointer
`__sbrk_heap_end` (`none` models the initial `NULL`) and `errno`. -/
structure SbrkState where
  heap_end : Option Nat
  errno : Nat
deriving DecidableEq

/-- newlib's `ENOMEM` error code. -/
def ENOMEM : Nat := 12

/-- `max_heap` in `_sbrk`: `(uintptr_t)&_estack - (uintptr_t)_Min_Stack_Size`. -/
def max_heap (p : LinkerSyms) : Nat :=
  wrap32 ((p.estack_addr : Int) - (p.min_stack_size : Int))

/-- The heap-end value `_sbrk` works with after its lazy initialization:
`&_end` when `__sbrk_heap_end` is still `NULL`, the stored value otherwise. -/
def effHeapEnd (p : LinkerSyms) (s : SbrkState) : Nat :=
  s.heap_end.getD p.end_addr

/-- Embedding of `_sbrk(ptrdiff_t incr)` from `sysmem.c`.  After the lazy
initialization of `__sbrk_heap_end`, the candidate `__sbrk_heap_end + incr`
is compared against `max_heap`; on overflow the function sets
`errno = ENOMEM` and returns `(void *)-1` leaving the (initialized)
heap end in place; otherwise it advances the heap end and returns the
previous heap end. -/
def sbrk (p : LinkerSyms) (s : SbrkState) (incr : Int) : SbrkState × Nat :=
  if wrap32 ((effHeapEnd p s : Int) + incr) > max_heap p then
    ({ heap_end := some (effHeapEnd p s), errno := ENOMEM }, wrap32 (-1))
  else
    ({ heap_end := some (wrap32 ((effHeapEnd p s : Int) + incr)), errno := s.errno },
      effHeapEnd p s)

/-- Run a sequence of `_sbrk` calls, threading the state. -/
def sbrkRun (p : LinkerSyms) (s : SbrkState) : List Int → SbrkState
  | [] => s
  | i :: l => sbrkRun p (sbrk p s i).1 l

/-- `_sbrk` takes its success branch: the (wrapped) advanced heap end does
not exceed `max_heap`. -/
def sbrkAccepts (p : LinkerSyms) (s : SbrkState) (incr : Int) : Prop :=
  wrap32 ((effHeapEnd p s : Int) + incr) ≤ max_heap p

instance (p : LinkerSyms) (s : SbrkState) (incr : Int) :
    Decidable (sbrkAccepts p s incr) := by
  unfold sbrkAccepts; infer_instance

/-- Linker symbols of the spec's concrete scenario: baseline `0x20000000`,
`_estack = 0x20001400`, `_Min_Stack_Size = 0x400`, hence
`max_heap = 0x20001000`. -/
def pDemo : LinkerSyms := ⟨0x20000000, 0x20001400, 0x400⟩

/-- Pristine state: `__sbrk_heap_end` still `NULL`. -/
def sDemo0 : SbrkState := ⟨none, 0⟩

/-- State after a successful `0x800` grant from the baseline. -/
def sDemo1 : SbrkState := ⟨some 0x20000800, 0⟩

/-!
Embedding of `Core/Src/main.c`.

The HAL is the environment: poll outcomes, initialization results and the
ADC start result are inputs; the loop body's observable effects (ADC reads,
UART transmissions, delays) are recorded as a trace of actions.
-/

/-- `sizeof(msg)` in `main`: the 20-byte line buffer. -/
def MSG_CAP : Nat := 20

/-- Fuel-driven most-significant-digit-first decimal rendering, the
behaviour of `%lu` in `snprintf`. -/
def decAux : Nat → Nat → List Char → List Char
  | 0, _, acc => acc
  | fuel + 1, v, acc =>
    if v < 10 then Nat.digitChar v :: acc
    else decAux fuel (v / 10) (Nat.digitChar (v % 10) :: acc)

/-- Decimal rendering of a natural number (`%lu`), e.g. `decRepr 0 = ['0']`. -/
def decRepr (v : Nat) : List Char := decAux (v + 1) v []

/-- The untruncated text `snprintf` is asked to produce for a sample `v`:
`"ADC: %lu\r\n"`. -/
def fullMsg (v : Nat) : List Char := "ADC: ".data ++ decRepr v ++ ['\r', '\n']

/-- What actually ends up in `msg` (and is measured by `strlen`):
`snprintf(msg, 20, ...)` stores at most `sizeof(msg) - 1 = 19` characters
plus the terminating NUL. -/
def snprintfMsg (v : Nat) : List Char := (fullMsg v).take (MSG_CAP - 1)

/-- Observable effects of the firmware, recorded in order. -/
inductive Action where
  | adcStart
  | adcRead (v : Nat)
  | transmit (msg : List Char)
  | delay (ms : Nat)
deriving DecidableEq

/-- Outcome of one `HAL_ADC_PollForConversion` call: `HAL_OK` together with
the value the subsequent `HAL_ADC_GetValue` would read, or a failure
status. -/
inductive PollEvent where
  | ok (v : Nat)
  | fail
deriving DecidableEq

/-- One pass of the `while (1)` body in `main`: on `HAL_OK` the sample is
read (a `uint32_t`, hence the reduction mod `2^32`), formatted, transmitted
and followed by `HAL_Delay(50)`; on a failed poll the body does nothing. -/
def loopIter : PollEvent → List Action
  | .ok v => [.adcRead (v % W32), .transmit (snprintfMsg (v % W32)), .delay 50]
  | .fail => []

/-- Trace of the sampling loop over a finite sequence of poll outcomes. -/
def runLoop : List PollEvent → List Action
  | [] => []
  | e :: es => loopIter e ++ runLoop es

/-- The transmitted lines of a trace, in order. -/
def transmits : List Action → List (List Char)
  | [] => []
  | Action.transmit m :: as => m :: transmits as
  | _ :: as => transmits as

/-- The HAL environment `main` runs against: results of `HAL_ADC_Init`,
`HAL_ADC_ConfigChannel`, `HAL_UART_Init` and `HAL_ADC_Start`, plus the poll
outcome of every loop iteration. -/
structure Env where
  adcInitOk : Bool
  chanCfgOk : Bool
  uartInitOk : Bool
  adcStartOk : Bool
  polls : Nat → PollEvent

/-- Control state of `main`: booting (initialization in progress), inside
the sampling loop at iteration `i`, or spinning in `Error_Handler`. -/
inductive MState where
  | boot
  | sampling (i : Nat)
  | halted
deriving DecidableEq

/-- One step of `main`.  Booting runs the three checked initializations in
program order — any failure calls `Error_Handler`, entering the absorbing
`halted` state — then calls `HAL_ADC_Start` whose result is not consulted;
each sampling step performs one loop-body pass; `Error_Handler` loops
forever doing nothing. -/
def step (env : Env) : MState → MState × List Action
  | .boot =>
    if env.adcInitOk && env.chanCfgOk && env.uartInitOk then
      (.sampling 0, [.adcStart])
    else
      (.halted, [])
  | .sampling i => (.sampling (i + 1), loopIter (env.polls i))
  | .halted => (.halted, [])

/-- The control state after `n` steps from power-on. -/
def stateAfter (env : Env) : Nat → MState
  | 0 => .boot
  | n + 1 => (step env (stateAfter env n)).1

/-- Cumulative trace of the first `n` steps. -/
def traceN (env : Env) : Nat → List Action
  | 0 => []
  | n + 1 => traceN env n ++ (step env (stateAfter env n)).2

/-- An environment in which `HAL_UART_Init` reports failure. -/
def envFailUart : Env := ⟨true, true, false, true, fun _ => .ok 0⟩

/-- An environment in which every initialization succeeds but
`HAL_ADC_Start` reports failure. -/
def envStartFails : Env := ⟨true, true, true, false, fun _ => .ok 0⟩

-- basic facts about wrap32

theorem wrap32_lt (x : Int) : wrap32 x < W32 := by
  have h0 : 0 ≤ x % (W32 : Int) := Int.emod_nonneg x (by norm_num [W32])
  have h1 : x % (W32 : Int) < (W32 : Int) :=
    Int.emod_lt_of_pos x (by norm_num [W32])
  unfold wrap32
  omega

theorem wrap32_eq_self (x : Int) (h0 : 0 ≤ x) (h1 : x < (W32 : Int)) :
    (wrap32 x : Int) = x := by
  unfold wrap32
  rw [Int.emod_eq_of_lt h0 h1]
  omega

/-- Claim C1: for every increment `I` such that the current heap-end plus
`I` does not exceed the maximum permissible heap address, `_sbrk I` returns
the heap-end value as it stood before the call and advances the heap-end
pointer by exactly `I`. -/
theorem sbrk_grow_ok (p : LinkerSyms) (s : SbrkState) (incr : Int)
    (h0 : 0 ≤ (effHeapEnd p s : Int) + incr)
    (h1 : (effHeapEnd p s : Int) + incr ≤ (max_heap p : Int)) :
    (sbrk p s incr).2 = effHeapEnd p s ∧
    ∃ x, (sbrk p s incr).1.heap_end = some x ∧
      (x : Int) = (effHeapEnd p s : Int) + incr := by
  have hm : max_heap p < W32 := wrap32_lt _
  have hlt : (effHeapEnd p s : Int) + incr < (W32 : Int) := by
    have : (max_heap p : Int) < (W32 : Int) := by exact_mod_cast hm
    omega
  have hw : (wrap32 ((effHeapEnd p s : Int) + incr) : Int) =
      (effHeapEnd p s : Int) + incr := wrap32_eq_self _ h0 hlt
  have hcond : ¬ (wrap32 ((effHeapEnd p s : Int) + incr) > max_heap p) := by
    have : (wrap32 ((effHeapEnd p s : Int) + incr) : Int) ≤ (max_heap p : Int) := by
      omega
    exact_mod_cast not_lt.mpr this
  refine ⟨?_, wrap32 ((effHeapEnd p s : Int) + incr), ?_, hw⟩ <;>
    · unfold sbrk
      rw [if_neg hcond]

/-- Witness for C1 at the spec's concrete scenario: from the pristine state
a request of `0x800` succeeds, returns the baseline `0x20000000` and
advances the heap end to `0x20000800`. -/
theorem sbrk_grow_ok_witness :
    (0 ≤ (effHeapEnd pDemo sDemo0 : Int) + 0x800) ∧
    ((effHeapEnd pDemo sDemo0 : Int) + 0x800 ≤ (max_heap pDemo : Int)) ∧
    ((sbrk pDemo sDemo0 0x800).2 = effHeapEnd pDemo sDemo0 ∧
     ∃ x, (sbrk pDemo sDemo0 0x800).1.heap_end = some x ∧
       (x : Int) = (effHeapEnd pDemo sDemo0 : Int) + 0x800) :=
  ⟨by decide, by decide, sbrk_grow_ok pDemo sDemo0 0x800 (by decide) (by decide)⟩

/-- Claim C2: for every increment `I` such that the current heap-end plus
`I` exceeds the maximum permissible heap address, `_sbrk I` sets `errno`
to `ENOMEM`, returns `(void *)-1`, and leaves the heap-end pointer at its
(initialized) current value; calling `_sbrk` again with the same `I`
yields the same state and the same result. -/
theorem sbrk_oom (p : LinkerSyms) (s : SbrkState) (incr : Int)
    (h1 : (max_heap p : Int) < (effHeapEnd p s : Int) + incr)
    (h2 : (effHeapEnd p s : Int) + incr < (W32 : Int)) :
    (sbrk p s incr).2 = wrap32 (-1) ∧
    (sbrk p s incr).1.errno = ENOMEM ∧
    (sbrk p s incr).1.heap_end = some (effHeapEnd p s) ∧
    sbrk p (sbrk p s incr).1 incr = sbrk p s incr := by
  have h0 : (0 : Int) ≤ (effHeapEnd p s : Int) + incr := by
    have : (0 : Int) ≤ (max_heap p : Int) := Int.ofNat_nonneg _
    omega
  have hw : (wrap32 ((effHeapEnd p s : Int) + incr) : Int) =
      (effHeapEnd p s : Int) + incr := wrap32_eq_self _ h0 h2
  have hcond : wrap32 ((effHeapEnd p s : Int) + incr) > max_heap p := by
    have : (max_heap p : Int) < (wrap32 ((effHeapEnd p s : Int) + incr) : Int) := by
      omega
    exact_mod_cast this
  have hstep : sbrk p s incr =
      ({ heap_end := some (effHeapEnd p s), errno := ENOMEM }, wrap32 (-1)) := by
    unfold sbrk
    rw [if_pos hcond]
  have heff : effHeapEnd p
      ({ heap_end := some (effHeapEnd p s), errno := ENOMEM } : SbrkState) =
      effHeapEnd p s := rfl
  refine ⟨by rw [hstep], by rw [hstep], by rw [hstep], ?_⟩
  rw [hstep]
  unfold sbrk
  rw [heff, if_pos hcond]

/-- Witness for C2 at the spec's concrete scenario: with the heap end at
`0x20000800`, a request of `0x900` would reach `0x20001100 > 0x20001000`,
so it fails, sets `ENOMEM`, leaves the heap end in place, and repeating the
call changes nothing. -/
theorem sbrk_oom_witness :
    ((max_heap pDemo : Int) < (effHeapEnd pDemo sDemo1 : Int) + 0x900) ∧
    ((effHeapEnd pDemo sDemo1 : Int) + 0x900 < (W32 : Int)) ∧
    ((sbrk pDemo sDemo1 0x900).2 = wrap32 (-1) ∧
     (sbrk pDemo sDemo1 0x900).1.errno = ENOMEM ∧
     (sbrk pDemo sDemo1 0x900).1.heap_end = some (effHeapEnd pDemo sDemo1) ∧
     sbrk pDemo (sbrk pDemo sDemo1 0x900).1 0x900 = sbrk pDemo sDemo1 0x900) :=
  ⟨by decide, by decide, sbrk_oom pDemo sDemo1 0x900 (by decide) (by decide)⟩

/-- One `_sbrk` call keeps the effective heap end at or below `max_heap`
whenever it started there: the failure branch does not move it and the
success branch checked the new value. -/
theorem sbrk_step_preserves (p : LinkerSyms) (s : SbrkState) (i : Int)
    (h : effHeapEnd p s ≤ max_heap p) :
    effHeapEnd p (sbrk p s i).1 ≤ max_heap p := by
  unfold sbrk
  by_cases hc : wrap32 ((effHeapEnd p s : Int) + i) > max_heap p
  · rw [if_pos hc]
    exact h
  · rw [if_neg hc]
    exact not_lt.mp hc

/-- Any run of `_sbrk` calls keeps the effective heap end at or below
`max_heap` whenever it started there. -/
theorem sbrkRun_preserves (p : LinkerSyms) (l : List Int) :
    ∀ s : SbrkState, effHeapEnd p s ≤ max_heap p →
      effHeapEnd p (sbrkRun p s l) ≤ max_heap p := by
  induction l with
  | nil => exact fun s h => h
  | cons i l ih => exact fun s h => ih _ (sbrk_step_preserves p s i h)

/-- Claim C3: after any sequence of `_sbrk` calls from the pristine state,
the heap-end pointer never exceeds the stack-reserved boundary
`max_heap = &_estack - _Min_Stack_Size` (given the linker places `_end` at
or below that boundary, as the RAM layout in `sysmem.c` depicts). -/
theorem sbrk_heap_bounded (p : LinkerSyms) (e0 : Nat) (l : List Int) (x : Nat)
    (hbase : p.end_addr ≤ max_heap p)
    (hx : (sbrkRun p { heap_end := none, errno := e0 } l).heap_end = some x) :
    x ≤ max_heap p := by
  have h := sbrkRun_preserves p l { heap_end := none, errno := e0 }
    (by simpa [effHeapEnd] using hbase)
  simpa [effHeapEnd, hx] using h

/-- Witness for C3: the spec's two-call scenario `[0x800, 0x900]` leaves
the heap end at `0x20000800 ≤ 0x20001000`. -/
theorem sbrk_heap_bounded_witness :
    pDemo.end_addr ≤ max_heap pDemo ∧
    (sbrkRun pDemo { heap_end := none, errno := 0 } [0x800, 0x900]).heap_end =
      some 0x20000800 ∧
    0x20000800 ≤ max_heap pDemo :=
  ⟨by decide, by decide,
    sbrk_heap_bounded pDemo 0 [0x800, 0x900] 0x20000800 (by decide) (by decide)⟩

/-- Counterexample to C4 as stated: the increment `-1` is accepted by
`_sbrk` (the bounds check passes and the prior heap end is returned), yet
the heap-end value after the call, `0x200007FF`, is strictly below its
value before the call, `0x20000800`. -/
theorem sbrk_neg_incr_decreases :
    sbrkAccepts pDemo sDemo1 (-1) ∧
    (sbrk pDemo sDemo1 (-1)).2 = effHeapEnd pDemo sDemo1 ∧
    (sbrk pDemo sDemo1 (-1)).1.heap_end = some 0x200007FF ∧
    0x200007FF < effHeapEnd pDemo sDemo1 :=
  ⟨by decide, by decide, by decide, by decide⟩

/-- Claim C4 (amended): for every NONNEGATIVE increment `I` accepted by
`_sbrk` (with the advanced address inside the 32-bit address space), the
heap-end value after the call is at least its value before the call.  The
unamended claim fails because `ptrdiff_t` is signed and `_sbrk` happily
services negative increments (see the counterexample). -/
theorem sbrk_monotone_nonneg (p : LinkerSyms) (s : SbrkState) (incr : Int)
    (hpos : 0 ≤ incr)
    (hnw : (effHeapEnd p s : Int) + incr < (W32 : Int))
    (hacc : sbrkAccepts p s incr) :
    ∃ x, (sbrk p s incr).1.heap_end = some x ∧ effHeapEnd p s ≤ x := by
  have h0 : (0 : Int) ≤ (effHeapEnd p s : Int) + incr := by
    have : (0 : Int) ≤ (effHeapEnd p s : Int) := Int.ofNat_nonneg _
    omega
  have hw : (wrap32 ((effHeapEnd p s : Int) + incr) : Int) =
      (effHeapEnd p s : Int) + incr := wrap32_eq_self _ h0 hnw
  have hcond : ¬ (wrap32 ((effHeapEnd p s : Int) + incr) > max_heap p) :=
    not_lt.mpr hacc
  refine ⟨wrap32 ((effHeapEnd p s : Int) + incr), ?_, by omega⟩
  unfold sbrk
  rw [if_neg hcond]

/-- Witness for the amended C4: growing by `0x100` from `0x20000800` is
accepted and does not decrease the heap end. -/
theorem sbrk_monotone_nonneg_witness :
    (0 : Int) ≤ 0x100 ∧
    ((effHeapEnd pDemo sDemo1 : Int) + 0x100 < (W32 : Int)) ∧
    sbrkAccepts pDemo sDemo1 0x100 ∧
    (∃ x, (sbrk pDemo sDemo1 0x100).1.heap_end = some x ∧
      effHeapEnd pDemo sDemo1 ≤ x) :=
  ⟨by decide, by decide, by decide,
    sbrk_monotone_nonneg pDemo sDemo1 0x100 (by decide) (by decide) (by decide)⟩

/-- Claim C5: a call on the pristine state (`__sbrk_heap_end == NULL`)
first establishes the heap end at the linker baseline `&_end`, whatever
the increment is: it behaves exactly like the same call on a state whose
heap end is already `&_end`, so the bounds check and the advance are
applied to that baseline. -/
theorem sbrk_first_call (p : LinkerSyms) (s : SbrkState) (incr : Int)
    (h : s.heap_end = none) :
    sbrk p s incr = sbrk p { heap_end := some p.end_addr, errno := s.errno } incr := by
  have he : effHeapEnd p s = p.end_addr := by simp [effHeapEnd, h]
  unfold sbrk
  rw [he]
  rfl

/-- Witness for C5: from the pristine state, a (rejected) request of
`0x2000` behaves exactly as it would with the heap end already at the
baseline. -/
theorem sbrk_first_call_witness :
    sDemo0.heap_end = none ∧
    sbrk pDemo sDemo0 0x2000 =
      sbrk pDemo { heap_end := some pDemo.end_addr, errno := sDemo0.errno } 0x2000 :=
  ⟨rfl, sbrk_first_call pDemo sDemo0 0x2000 rfl⟩

/-- `decAux` output length: rendering a number below `10 ^ k` (for `k ≥ 1`)
adds at most `k` characters in front of the accumulator. -/
theorem decAux_length_le (fuel : Nat) :
    ∀ (v : Nat) (acc : List Char) (k : Nat), v < 10 ^ k → 1 ≤ k →
      (decAux fuel v acc).length ≤ k + acc.length := by
  induction fuel with
  | zero =>
    intro v acc k _ _
    simp [decAux]
  | succ fuel ih =>
    intro v acc k hv hk
    unfold decAux
    by_cases h10 : v < 10
    · rw [if_pos h10]
      simp
      omega
    · rw [if_neg h10]
      have hk2 : 2 ≤ k := by
        rcases Nat.lt_or_ge k 2 with h | h
        · have hk1 : k = 1 := by omega
          rw [hk1, pow_one] at hv
          omega
        · exact h
      obtain ⟨k', rfl⟩ : ∃ k', k = k' + 1 := ⟨k - 1, by omega⟩
      have hv' : v / 10 < 10 ^ k' := by
        rw [Nat.div_lt_iff_lt_mul (by norm_num)]
        calc v < 10 ^ (k' + 1) := hv
          _ = 10 ^ k' * 10 := by ring
      have h := ih (v / 10) (Nat.digitChar (v % 10) :: acc) k' hv' (by omega)
      simp at h
      omega

/-- The decimal rendering of a number below `10 ^ k` has at most `k`
digits. -/
theorem decRepr_length_le (v k : Nat) (hv : v < 10 ^ k) (hk : 1 ≤ k) :
    (decRepr v).length ≤ k := by
  have h := decAux_length_le (v + 1) v [] k hv hk
  simpa [decRepr] using h

/-- A full `"ADC: %lu\r\n"` line for a 32-bit sample is at most
`5 + 10 + 2 = 17` characters long. -/
theorem fullMsg_length_le (v : Nat) (hv : v < W32) :
    (fullMsg v).length ≤ 17 := by
  have h10 : v < 10 ^ 10 := lt_of_lt_of_le hv (by norm_num [W32])
  have hd := decRepr_length_le v 10 h10 (by norm_num)
  have hp : ("ADC: ".data).length = 5 := rfl
  simp [fullMsg, hp]
  omega

/-- For 32-bit samples the 19-character capacity of `snprintf(msg, 20, ...)`
is never reached, so the stored message is the full line. -/
theorem snprintfMsg_eq (v : Nat) (hv : v < W32) : snprintfMsg v = fullMsg v := by
  unfold snprintfMsg
  exact List.take_of_length_le (le_trans (fullMsg_length_le v hv) (by norm_num [MSG_CAP]))

/-- Claim C9: for every 32-bit unsigned sample, the formatted line
`"ADC: %lu\r\n"` plus its NUL terminator fits in the 20-byte `msg` buffer,
so `snprintf` never truncates the line. -/
theorem msg_fits_buffer (v : Nat) (hv : v < W32) :
    (fullMsg v).length + 1 ≤ MSG_CAP ∧ snprintfMsg v = fullMsg v := by
  have h := fullMsg_length_le v hv
  refine ⟨?_, snprintfMsg_eq v hv⟩
  show (fullMsg v).length + 1 ≤ 20
  omega

/-- Witness for C9 at the largest 32-bit sample `4294967295`. -/
theorem msg_fits_buffer_witness :
    4294967295 < W32 ∧
    ((fullMsg 4294967295).length + 1 ≤ MSG_CAP ∧
     snprintfMsg 4294967295 = fullMsg 4294967295) :=
  ⟨by decide, msg_fits_buffer 4294967295 (by decide)⟩

/-- `transmits` distributes over trace concatenation. -/
theorem transmits_append (a b : List Action) :
    transmits (a ++ b) = transmits a ++ transmits b := by
  induction a with
  | nil => rfl
  | cons x a ih => cases x <;> simp [transmits, ih]

/-- Claim C6: over any finite run of successful conversions, the loop
transmits exactly one `"ADC: %lu\r\n"` line per sample, in sample order. -/
theorem loop_output_lines (vs : List Nat) (hvs : ∀ v ∈ vs, v < W32) :
    transmits (runLoop (vs.map PollEvent.ok)) = vs.map fullMsg := by
  induction vs with
  | nil => rfl
  | cons v vs ih =>
    have hv : v < W32 := hvs v (by simp)
    have hrest : ∀ w ∈ vs, w < W32 := fun w hw => hvs w (by simp [hw])
    have hmod : v % W32 = v := Nat.mod_eq_of_lt hv
    calc transmits (runLoop (List.map PollEvent.ok (v :: vs)))
        = snprintfMsg (v % W32) :: transmits (runLoop (vs.map PollEvent.ok)) := by
          simp [runLoop, loopIter, transmits_append, transmits]
      _ = fullMsg v :: vs.map fullMsg := by
          rw [hmod, snprintfMsg_eq v hv, ih hrest]
      _ = List.map fullMsg (v :: vs) := rfl

/-- Witness for C6: the spec's sample sequence `[100, 2048, 4095]` yields
exactly the lines `"ADC: 100\r\n"`, `"ADC: 2048\r\n"`, `"ADC: 4095\r\n"`. -/
theorem loop_output_lines_witness :
    (∀ v ∈ [100, 2048, 4095], v < W32) ∧
    transmits (runLoop ([100, 2048, 4095].map PollEvent.ok)) =
      ["ADC: 100\r\n".data, "ADC: 2048\r\n".data, "ADC: 4095\r\n".data] :=
  ⟨by decide, by
    rw [loop_output_lines [100, 2048, 4095] (by decide)]
    decide⟩

/-- Claim C7: a loop iteration whose conversion wait fails performs no
observable action at all — no read, no transmission, no delay — and the
loop's subsequent trace is exactly that of the remaining iterations. -/
theorem poll_fail_silent (es : List PollEvent) :
    loopIter PollEvent.fail = [] ∧
    runLoop (PollEvent.fail :: es) = runLoop es := by
  exact ⟨rfl, by simp [runLoop, loopIter]⟩

/-- Claim C8: if `HAL_UART_Init` reports failure, `main` transfers control
to `Error_Handler`, every subsequent state is the absorbing halt state, and
no `HAL_ADC_GetValue` read ever appears in the trace. -/
theorem uart_init_fail_halts (env : Env) (h : env.uartInitOk = false) :
    (∀ n, stateAfter env (n + 1) = MState.halted) ∧
    (∀ n, ∀ a ∈ traceN env n, ∀ v, a ≠ Action.adcRead v) := by
  have hboot : step env MState.boot = (MState.halted, []) := by
    simp [step, h]
  have hst : ∀ n, stateAfter env (n + 1) = MState.halted := by
    intro n
    induction n with
    | zero =>
      show (step env MState.boot).1 = MState.halted
      rw [hboot]
    | succ n ih =>
      show (step env (stateAfter env (n + 1))).1 = MState.halted
      rw [ih]
      rfl
  have htr : ∀ n, traceN env n = [] := by
    intro n
    induction n with
    | zero => rfl
    | succ n ih =>
      cases n with
      | zero =>
        show [] ++ (step env MState.boot).2 = []
        rw [hboot]
        rfl
      | succ m =>
        show traceN env (m + 1) ++ (step env (stateAfter env (m + 1))).2 = []
        rw [ih, hst m]
        rfl
  exact ⟨hst, fun n a ha v => by rw [htr n] at ha; cases ha⟩

/-- Witness for C8: in an environment whose UART initialization fails, the
machine is halted after three steps and its trace holds no ADC read. -/
theorem uart_init_fail_halts_witness :
    envFailUart.uartInitOk = false ∧
    stateAfter envFailUart 3 = MState.halted ∧
    (∀ a ∈ traceN envFailUart 3, ∀ v, a ≠ Action.adcRead v) :=
  ⟨rfl, (uart_init_fail_halts envFailUart rfl).1 2,
    fun a ha v => (uart_init_fail_halts envFailUart rfl).2 3 a ha v⟩

/-- Claim C10: `main` never consults the result of `HAL_ADC_Start` — even
when starting the conversion fails, the machine still enters the sampling
loop rather than the halt state. -/
theorem adc_start_unchecked (env : Env)
    (h1 : env.adcInitOk = true) (h2 : env.chanCfgOk = true)
    (h3 : env.uartInitOk = true) (_h4 : env.adcStartOk = false) :
    stateAfter env 1 = MState.sampling 0 ∧ stateAfter env 1 ≠ MState.halted := by
  have hboot : step env MState.boot = (MState.sampling 0, [Action.adcStart]) := by
    simp [step, h1, h2, h3]
  refine ⟨?_, ?_⟩ <;> simp [stateAfter, hboot]

/-- Witness for C10: with all initializations succeeding but
`HAL_ADC_Start` failing, the machine is sampling after one step. -/
theorem adc_start_unchecked_witness :
    envStartFails.adcInitOk = true ∧ envStartFails.chanCfgOk = true ∧
    envStartFails.uartInitOk = true ∧ envStartFails.adcStartOk = false ∧
    (stateAfter envStartFails 1 = MState.sampling 0 ∧
     stateAfter envStartFails 1 ≠ MState.halted) :=
  ⟨rfl, rfl, rfl, rfl, adc_start_unchecked envStartFails rfl rfl rfl rfl⟩

end ECE198
